import Mathlib

/-!
Verification development for the Educa-Lukunde sheet application.

The definitions below are a shallow embedding of the application's core
logic: the cell-value model, the JavaScript numeric coercions used by the
code (`Number`, `parseFloat`, `toFixed(1)`), the conditional-format
resolution (`getCellStyle` of the Spreadsheet component), cell validation
(`validateValue`), the cell-write pipeline (`updateCell`), sheet splitting
(`splitSheetByColumn`), the unlock flow (`handleUnlockSheet`), sheet
deletion (`handleDeleteSheet`) and duplication (`handleDuplicateSheet`).

JavaScript numbers are modelled by exact fractions (`Frac`); the numeric
claims settled here concern decimal literals for which binary-double
rounding plays no role.  String case mapping is modelled for the ASCII
range, which covers all codes and header keywords the application
compares.
-/

/-- An exact fraction `num / den` (operations keep `den` positive; no
normalisation is performed, and numeric comparison is by cross
multiplication, so equal JavaScript numbers compare equal). -/
structure Frac where
  num : Int
  den : Nat
deriving DecidableEq, Repr

/-- The fraction denoting an integer. -/
def Frac.ofInt (n : Int) : Frac := ⟨n, 1⟩

/-- The fraction denoting a natural number. -/
def Frac.ofNat (n : Nat) : Frac := ⟨(n : Int), 1⟩

/-- Exact addition. -/
def Frac.add (a b : Frac) : Frac :=
  ⟨a.num * (b.den : Int) + b.num * (a.den : Int), a.den * b.den⟩

/-- Exact negation. -/
def Frac.neg (a : Frac) : Frac := ⟨-a.num, a.den⟩

/-- Exact subtraction. -/
def Frac.sub (a b : Frac) : Frac := a.add b.neg

/-- Exact multiplication. -/
def Frac.mul (a b : Frac) : Frac := ⟨a.num * b.num, a.den * b.den⟩

/-- Exact division by a positive natural number. -/
def Frac.divNat (a : Frac) (n : Nat) : Frac := ⟨a.num, a.den * n⟩

/-- Scaling by a signed power of ten, used for exponents of numeric literals. -/
def Frac.scale10 (a : Frac) (k : Int) : Frac :=
  if 0 ≤ k then ⟨a.num * (10 : Int) ^ k.toNat, a.den⟩
  else ⟨a.num, a.den * 10 ^ (-k).toNat⟩

/-- Numeric strictly-less-than (valid because denominators are positive). -/
def Frac.blt (a b : Frac) : Bool := a.num * (b.den : Int) < b.num * (a.den : Int)

/-- Numeric equality by cross multiplication. -/
def Frac.beq (a b : Frac) : Bool := a.num * (b.den : Int) == b.num * (a.den : Int)

/-- Numeric less-than-or-equal. -/
def Frac.ble (a b : Frac) : Bool := a.blt b || a.beq b

/-- Floor of the denoted rational (`Int.fdiv` floors for positive divisors). -/
def Frac.floor (a : Frac) : Int := a.num.fdiv (a.den : Int)

/-- Is the denoted rational negative? -/
def Frac.isNeg (a : Frac) : Bool := a.num < 0

/-- Is the denoted rational zero? -/
def Frac.isZero (a : Frac) : Bool := a.num == 0

/-- A spreadsheet cell value: `string | number | boolean | null | undefined`. -/
inductive CellValue where
  | str (s : String)
  | num (q : Frac)
  | bool (b : Bool)
  | null
  | undef
deriving DecidableEq, Repr

/-- JavaScript truthiness of a cell value (`NaN` never occurs as a stored cell). -/
def jsTruthy : CellValue → Bool
  | .str s => s ≠ ""
  | .num q => !q.isZero
  | .bool b => b
  | .null => false
  | .undef => false

/-- The JavaScript `a || b` idiom applied to a cell value with a fallback. -/
def jsOr (v fallback : CellValue) : CellValue :=
  if jsTruthy v then v else fallback

/-- Decimal digit test on characters. -/
def isDigitCh (ch : Char) : Bool := '0' ≤ ch && ch ≤ '9'

/-- Value of a list of decimal digit characters, most significant first. -/
def digitsToNat (ds : List Char) : Nat :=
  ds.foldl (fun acc ch => acc * 10 + (ch.toNat - 48)) 0

/-- Split a character list into its leading run of digits and the remainder. -/
def takeDigits : List Char → List Char × List Char
  | [] => ([], [])
  | ch :: rest =>
    if isDigitCh ch then (ch :: (takeDigits rest).1, (takeDigits rest).2)
    else ([], ch :: rest)

/-- Fractional digits of a nonnegative fraction below 1, up to `fuel` digits. -/
def fracDigits : Nat → Frac → List Char
  | 0, _ => []
  | fuel + 1, q =>
    if q.isZero then []
    else
      let q10 := q.mul (Frac.ofNat 10)
      let d := q10.floor.toNat
      Char.ofNat (48 + d) :: fracDigits fuel (q10.sub (Frac.ofInt q10.floor))

/-- Decimal rendering of a nonnegative fraction, as JavaScript prints
finitely-representable numbers (integers without a decimal point). -/
def fracToStringNonneg (q : Frac) : String :=
  let ip := q.floor.toNat
  let fr := q.sub (Frac.ofInt q.floor)
  if fr.isZero then toString ip
  else toString ip ++ "." ++ String.mk (fracDigits 30 fr)

/-- Decimal rendering of a fraction, modelling JavaScript number-to-string
for the finitely-representable values the application manipulates. -/
def fracToString (q : Frac) : String :=
  if q.isNeg then "-" ++ fracToStringNonneg q.neg else fracToStringNonneg q

/-- The JavaScript `String(v)` conversion of a cell value. -/
def cvToString : CellValue → String
  | .str s => s
  | .num q => fracToString q
  | .bool b => if b then "true" else "false"
  | .null => "null"
  | .undef => "undefined"

/-- Replace the first occurrence of a character, as `String.prototype.replace`
with a one-character string pattern does. -/
def replaceFirstChar (target repl : Char) : List Char → List Char
  | [] => []
  | ch :: rest =>
    if ch = target then repl :: rest else ch :: replaceFirstChar target repl rest

/-- String version of `replaceFirstChar`. -/
def strReplaceFirst (s : String) (target repl : Char) : String :=
  String.mk (replaceFirstChar target repl s.data)

/-- Strip leading and trailing whitespace from a character list, as
`String.prototype.trim` does. -/
def trimChars (cs : List Char) : List Char :=
  ((cs.dropWhile Char.isWhitespace).reverse.dropWhile Char.isWhitespace).reverse

/-- Does the character list start with the given needle? -/
def leadMatch : List Char → List Char → Bool
  | _, [] => true
  | [], _ :: _ => false
  | a :: as, b :: bs => a == b && leadMatch as bs

/-- Does the haystack contain the needle as a contiguous run?  Models
`String.prototype.includes`. -/
def seqMatch (needle : List Char) : List Char → Bool
  | [] => needle.isEmpty
  | ch :: rest => leadMatch (ch :: rest) needle || seqMatch needle rest

/-- `String.prototype.includes` on strings. -/
def strIncludes (hay sub : String) : Bool := seqMatch sub.data hay.data

/-- ASCII lower-casing (models `toLowerCase` for the ASCII range, which
covers the codes and header keywords the application compares). -/
def strToLower (s : String) : String := String.mk (s.data.map Char.toLower)

/-- ASCII upper-casing (models `toUpperCase` for the ASCII range). -/
def strToUpper (s : String) : String := String.mk (s.data.map Char.toUpper)

/-- Exponent step of the numeric-literal parser: after a mantissa, try to
consume `e`/`E`, an optional sign and digits; without digits the exponent
marker is not consumed (so `parseFloat("1e") = 1`). -/
def tryExp (base : Frac) (rest fallbackRest : List Char) : Option (Frac × List Char) :=
  let sgn : Int := if rest.headD ' ' = '-' then -1 else 1
  let rest2 : List Char :=
    if rest.headD ' ' = '+' ∨ rest.headD ' ' = '-' then rest.tail else rest
  if (takeDigits rest2).1.isEmpty then some (base, fallbackRest)
  else some (base.scale10 (sgn * (digitsToNat (takeDigits rest2).1 : Int)), (takeDigits rest2).2)

/-- Parse an unsigned decimal literal prefix (`digits [. digits] [exp]` or
`. digits [exp]`), returning its value and the unconsumed remainder. -/
def parseUnsigned (cs : List Char) : Option (Frac × List Char) :=
  let intDs := (takeDigits cs).1
  let r1 := (takeDigits cs).2
  let fracPart : List Char × List Char :=
    if r1.headD ' ' = '.' then takeDigits r1.tail else ([], r1)
  let fracDs := fracPart.1
  let r2 := fracPart.2
  if intDs.isEmpty && fracDs.isEmpty then none
  else
    let base : Frac :=
      (Frac.ofNat (digitsToNat intDs)).add
        ((Frac.ofNat (digitsToNat fracDs)).divNat (10 ^ fracDs.length))
    if r2.headD ' ' = 'e' ∨ r2.headD ' ' = 'E' then tryExp base r2.tail r2
    else some (base, r2)

/-- Parse a signed decimal literal prefix. -/
def parseSigned (cs : List Char) : Option (Frac × List Char) :=
  if cs.headD ' ' = '+' then parseUnsigned cs.tail
  else if cs.headD ' ' = '-' then (parseUnsigned cs.tail).map (fun p => (p.1.neg, p.2))
  else parseUnsigned cs

/-- The JavaScript `parseFloat`: skip leading whitespace, parse the longest
numeric-literal prefix, ignore the rest; `none` models `NaN`.  (The
`Infinity` literal is outside this model; the application only feeds it
decimal grade strings.) -/
def parseFloat (s : String) : Option Frac :=
  (parseSigned (s.data.dropWhile Char.isWhitespace)).map Prod.fst

/-- The JavaScript `Number(string)` coercion: trim whitespace, an empty
remainder yields `0`, otherwise the whole remainder must be a numeric
literal; `none` models `NaN`.  (Hex/binary/`Infinity` forms are outside
this model.) -/
def jsNumberOfString (s : String) : Option Frac :=
  let cs := trimChars s.data
  if cs.isEmpty then some (Frac.ofNat 0)
  else
    match parseSigned cs with
    | some (q, []) => some q
    | _ => none

/-- The JavaScript `Number(v)` coercion of a cell value; `none` models `NaN`. -/
def jsNumber : CellValue → Option Frac
  | .str s => jsNumberOfString s
  | .num q => some q
  | .bool b => some (Frac.ofNat (if b then 1 else 0))
  | .null => some (Frac.ofNat 0)
  | .undef => none

/-- `toFixed(1)` for a nonnegative fraction: the integer `n` with `n / 10`
closest to the value, ties resolved to the larger `n`. -/
def toFixed1Nonneg (q : Frac) : String :=
  let n := (((q.mul (Frac.ofNat 10)).add ⟨1, 2⟩).floor).toNat
  toString (n / 10) ++ "." ++ toString (n % 10)

/-- The JavaScript `x.toFixed(1)` rendering (sign split off first, as in the
specification of `Number.prototype.toFixed`). -/
def toFixed1 (q : Frac) : String :=
  if q.isNeg then "-" ++ toFixed1Nonneg q.neg else toFixed1Nonneg q

example : toFixed1 (((Frac.mk 15 2).add (Frac.ofNat 8)).divNat 2) = "7.8" := by decide
example : toFixed1 (Frac.ofNat 8) = "8.0" := by decide
example : parseFloat "7.5" = some ⟨75, 10⟩ := by decide
example : jsNumberOfString "7,5" = none := by decide
example : jsNumberOfString "" = some (Frac.ofNat 0) := by decide
example : jsNumberOfString "1e" = none := by decide
example : (parseFloat "1e2").map Frac.floor = some 100 := by decide
example : fracToString ⟨75, 10⟩ = "7.5" := by decide
example : cvToString (.num (Frac.ofNat 0)) = "0" := by decide

/-- A conditional-formatting style preset. -/
structure ConditionalStyle where
  name : String
  backgroundColor : String
  color : String
deriving DecidableEq, Repr

/-- The condition kinds of a conditional-formatting rule. -/
inductive ConditionType where
  | gt | lt | eq | gte | lte | contains
deriving DecidableEq, Repr

/-- A conditional-formatting rule (`value` is `string | number` in the source). -/
structure ConditionalRule where
  id : String
  columnIndex : Nat
  condition : ConditionType
  value : CellValue
  style : ConditionalStyle
deriving DecidableEq, Repr

/-- The preset styles of the application (`PRESET_STYLES`). -/
def PRESET_STYLES : List ConditionalStyle :=
  [ { name := "Vermelho (Reprovado)", backgroundColor := "#FECACA", color := "#991B1B" },
    { name := "Verde (Aprovado)", backgroundColor := "#BBF7D0", color := "#166534" },
    { name := "Amarelo (Atenção)", backgroundColor := "#FEF08A", color := "#854D0E" },
    { name := "Azul (Destaque)", backgroundColor := "#BFDBFE", color := "#1E40AF" } ]

/-- The inline style object returned for a matching rule (the source adds
`fontWeight: '500'` to the rule's colours). -/
structure AppliedStyle where
  backgroundColor : String
  color : String
  fontWeight : String
deriving DecidableEq, Repr

/-- The cell value with a comma decimal separator normalised to a period,
as `getCellStyle` prepares string cells before the numeric parse. -/
def normalizedCellValue : CellValue → CellValue
  | .str s => .str (strReplaceFirst s ',' '.')
  | v => v

/-- `Number(normalizedValue)` of `getCellStyle`. -/
def cellNumValue (value : CellValue) : Option Frac :=
  jsNumber (normalizedCellValue value)

/-- The `isNumber` test of `getCellStyle`: the normalised value parses and
the original value is neither the empty string nor `null`. -/
def cellIsNumber (value : CellValue) : Bool :=
  (cellNumValue value).isSome && value ≠ .str "" && value ≠ .null

/-- One iteration of the `getCellStyle` rule loop: does this rule match the
cell value?  Numeric cells use numeric comparisons against `Number(rule.value)`
(`NaN` on either side never matches, and `contains` has no numeric case);
non-numeric cells use case-insensitive string `contains`/equality. -/
def ruleMatches (value : CellValue) (rule : ConditionalRule) : Bool :=
  if cellIsNumber value then
    match cellNumValue value, jsNumber rule.value with
    | some q, some rq =>
      match rule.condition with
      | .gt => rq.blt q
      | .lt => q.blt rq
      | .gte => rq.ble q
      | .lte => q.ble rq
      | .eq => q.beq rq
      | .contains => false
    | _, _ => false
  else
    let strVal := strToLower (cvToString value)
    let strRule := strToLower (cvToString rule.value)
    match rule.condition with
    | .contains => strIncludes strVal strRule
    | .eq => strVal == strRule
    | _ => false

/-- The `for`-loop of `getCellStyle`: return the first matching rule's style. -/
def styleLoop (value : CellValue) : List ConditionalRule → Option AppliedStyle
  | [] => none
  | rule :: rest =>
    if ruleMatches value rule then
      some { backgroundColor := rule.style.backgroundColor,
             color := rule.style.color, fontWeight := "500" }
    else styleLoop value rest

/-- `getCellStyle` of the Spreadsheet component: no style on the header row,
otherwise scan the rules of the cell's column in order. -/
def getCellStyle (rules : List ConditionalRule) (rowIndex colIndex : Nat)
    (value : CellValue) : Option AppliedStyle :=
  if rowIndex = 0 then none
  else styleLoop value (rules.filter (fun r => r.columnIndex == colIndex))

/-- The validation kinds of a validation rule. -/
inductive ValidationType where
  | number | text | date | list | email
deriving DecidableEq, Repr

/-- A data-validation rule (`min`/`max` are strings in the source). -/
structure ValidationRule where
  id : String
  columnIndex : Nat
  type : ValidationType
  min : Option String
  max : Option String
  options : Option (List String)
  errorMessage : Option String
deriving DecidableEq, Repr

/-- Result of `validateValue`. -/
structure ValidationOutcome where
  valid : Bool
  msg : Option String
deriving DecidableEq, Repr

/-- The `rule.min && num < Number(rule.min)` test: the bound is enforced only
when the field is a truthy (non-empty) string that parses as a number
(`num < NaN` is false in JavaScript). -/
def boundViolatedLow (minField : Option String) (num : Frac) : Bool :=
  match minField with
  | some m =>
    if m = "" then false
    else
      match jsNumberOfString m with
      | some qm => num.blt qm
      | none => false
  | none => false

/-- The `rule.max && num > Number(rule.max)` test. -/
def boundViolatedHigh (maxField : Option String) (num : Frac) : Bool :=
  match maxField with
  | some m =>
    if m = "" then false
    else
      match jsNumberOfString m with
      | some qm => qm.blt num
      | none => false
  | none => false

/-- Validity of a date string; models `new Date(s)` succeeding for the
`YYYY-MM-DD` strings the date input produces (other formats are outside
this model and conservatively rejected). -/
def jsDateParseValid (s : String) : Bool :=
  match s.data with
  | [y1, y2, y3, y4, '-', m1, m2, '-', d1, d2] =>
    [y1, y2, y3, y4, m1, m2, d1, d2].all isDigitCh &&
      (let mo := digitsToNat [m1, m2]
       let da := digitsToNat [d1, d2]
       1 ≤ mo && mo ≤ 12 && 1 ≤ da && da ≤ 31)
  | _ => false

/-- Lexicographic string comparison, as the JavaScript `<` on the raw date
strings (the source deliberately compares dates as strings). -/
def strLtB (a b : String) : Bool := decide (a < b)

/-- Does a string match `^[^\s@]+@[^\s@]+\.[^\s@]+$`?  Both sides of the `@`
exclude whitespace and `@`, so the string must contain exactly one `@`, a
non-empty local part, and a domain with an internal period. -/
def emailRegexTest (s : String) : Bool :=
  let cs := s.data
  match cs.findIdx? (· == '@') with
  | none => false
  | some i =>
    let localPart := cs.take i
    let domain := cs.drop (i + 1)
    localPart ≠ [] &&
      localPart.all (fun ch => !ch.isWhitespace && ch ≠ '@') &&
      domain.all (fun ch => !ch.isWhitespace && ch ≠ '@') &&
      ((domain.drop 1).dropLast).contains '.'

/-- `validateValue` of the application: empty values always pass; a `number`
rule requires a numeric parse and enforces its (truthy) bounds; a `date`
rule requires a parsable date and compares bounds lexicographically; a
`list` rule requires trimmed membership; an `email` rule applies the
regular expression. -/
def validateValue (value : CellValue) (rule : ValidationRule) : ValidationOutcome :=
  if value = .str "" ∨ value = .null ∨ value = .undef then ⟨true, none⟩
  else
    let strVal := String.mk (trimChars (cvToString value).data)
    if rule.type = .number then
      match jsNumber value with
      | none => ⟨false, some "O valor deve ser um número."⟩
      | some num =>
        if boundViolatedLow rule.min num then
          ⟨false, some ("O valor deve ser maior ou igual a " ++ rule.min.getD "" ++ ".")⟩
        else if boundViolatedHigh rule.max num then
          ⟨false, some ("O valor deve ser menor ou igual a " ++ rule.max.getD "" ++ ".")⟩
        else ⟨true, none⟩
    else if rule.type = .date then
      if !jsDateParseValid strVal then ⟨false, some "Data inválida."⟩
      else if (match rule.min with
               | some m => m ≠ "" && strLtB strVal m
               | none => false) then
        ⟨false, some ("A data deve ser posterior a " ++ rule.min.getD "" ++ ".")⟩
      else if (match rule.max with
               | some m => m ≠ "" && strLtB m strVal
               | none => false) then
        ⟨false, some ("A data deve ser anterior a " ++ rule.max.getD "" ++ ".")⟩
      else ⟨true, none⟩
    else if rule.type = .list then
      match rule.options with
      | some opts => if opts.contains strVal then ⟨true, none⟩
                     else ⟨false, some "Valor não permitido na lista."⟩
      | none => ⟨true, none⟩
    else if rule.type = .email then
      if emailRegexTest strVal then ⟨true, none⟩
      else ⟨false, some "Endereço de email inválido."⟩
    else ⟨true, none⟩

/-- A bare number rule used in examples below. -/
def numRulePlain : ValidationRule :=
  { id := "v", columnIndex := 0, type := .number,
    min := none, max := none, options := none, errorMessage := none }

/-- A 0..20 number rule used in examples below. -/
def numRule0to20 : ValidationRule :=
  { id := "v", columnIndex := 0, type := .number,
    min := some "0", max := some "20", options := none, errorMessage := none }

example : (validateValue (.str "7,5") numRulePlain).valid = false := by decide
example : (validateValue (.str "") numRule0to20).valid = true := by decide
example : (validateValue (.str "7.5") numRule0to20).valid = true := by decide
example : validateValue (.str "25") numRule0to20 =
    ⟨false, some "O valor deve ser menor ou igual a 20."⟩ := by decide

/-- A sheet: named grid plus rule sets and access metadata. -/
structure Sheet where
  id : String
  name : String
  data : List (List CellValue)
  conditionalFormats : List ConditionalRule
  validationRules : List ValidationRule
  editCode : Option String
  viewCode : Option String
  accessCode : Option String
  accessCodeExpiration : Option Nat
  isShared : Bool
deriving DecidableEq, Repr

/-- JavaScript array element assignment `l[i] = v`: indices beyond the end
extend the array, the intermediate holes reading as `undefined`. -/
def jsSetElem (l : List CellValue) (i : Nat) (v : CellValue) : List CellValue :=
  if i < l.length then l.set i v
  else l ++ List.replicate (i - l.length) CellValue.undef ++ [v]

/-- JavaScript row assignment `data[i] = row`; missing rows are modelled by
empty rows (every consumer treats a hole and an empty row alike). -/
def jsSetRow (l : List (List CellValue)) (i : Nat) (row : List CellValue) :
    List (List CellValue) :=
  if i < l.length then l.set i row
  else l ++ List.replicate (i - l.length) [] ++ [row]

/-- The `while (row.length <= k) row.push(fill)` idiom. -/
def padTo (l : List CellValue) (n : Nat) (fill : CellValue) : List CellValue :=
  l ++ List.replicate (n - l.length) fill

/-- Header normalisation of the average logic:
`String(h || "").toLowerCase().trim()`. -/
def hdrNorm (h : CellValue) : String :=
  String.mk (trimChars (strToLower (cvToString (jsOr h (.str "")))).data)

/-- The normalised header row of a data grid. -/
def headersOf (data : List (List CellValue)) : List String :=
  (data.getD 0 []).map hdrNorm

/-- Header test for the first grade column. -/
def isNota1Hdr (h : String) : Bool := strIncludes h "nota 1" || h == "p1" || h == "n1"

/-- Header test for the second grade column. -/
def isNota2Hdr (h : String) : Bool := strIncludes h "nota 2" || h == "p2" || h == "n2"

/-- Header test for the average column. -/
def isMediaHdr (h : String) : Bool := h == "média" || h == "media"

/-- Parse a grade operand as the average logic does:
`parseFloat(String(cell || "").replace(",", "."))`. -/
def operandParse (v : CellValue) : Option Frac :=
  parseFloat (strReplaceFirst (cvToString (jsOr v (.str ""))) ',' '.')

/-- The reactive average of `updateCell`, split out as a pure derivation:
when the three header columns resolve, the edited column is a grade
column, both operands parse and neither is the empty string, return the
average column index and the rendered average (`toFixed(1)`, with the
period turned into a comma if either operand as stored contains a comma). -/
def avgResult (headers : List String) (c : Nat) (newRow : List CellValue) :
    Option (Nat × String) :=
  match headers.findIdx? isNota1Hdr, headers.findIdx? isNota2Hdr,
        headers.findIdx? isMediaHdr with
  | some col1Idx, some col2Idx, some mediaIdx =>
    if c == col1Idx || c == col2Idx then
      let v1 := newRow.getD col1Idx .undef
      let v2 := newRow.getD col2Idx .undef
      match operandParse v1, operandParse v2 with
      | some val1, some val2 =>
        if v1 ≠ .str "" ∧ v2 ≠ .str "" then
          let avg := toFixed1 ((val1.add val2).divNat 2)
          let useComma := (cvToString v1).data.contains ',' || (cvToString v2).data.contains ','
          some (mediaIdx, if useComma then strReplaceFirst avg '.' ',' else avg)
        else none
      | _, _ => none
    else none
  | _, _, _ => none

/-- Apply the reactive average to the freshly edited row (pad the row with
empty strings up to the average column, then write the rendered average). -/
def recomputeRow (headers : List String) (c : Nat) (newRow : List CellValue) :
    List CellValue :=
  match avgResult headers c newRow with
  | none => newRow
  | some (mediaIdx, out) => jsSetElem (padTo newRow (mediaIdx + 1) (.str "")) mediaIdx (.str out)

/-- `updateCell` of the application: refuse without edit access, refuse when
the column's validation rule rejects the value (`none` models the
cancelled update), otherwise write the cell and run the reactive average
on the edited row. -/
def updateCell (sheet : Sheet) (canEdit : Bool) (r c : Nat) (value : CellValue) :
    Option Sheet :=
  if !canEdit then none
  else if !((sheet.validationRules.find? (fun rule => rule.columnIndex == c)).all
              (fun rule => (validateValue value rule).valid)) then none
  else
    let newRow := jsSetElem (sheet.data.getD r []) c value
    let headers := headersOf (jsSetRow sheet.data r newRow)
    let finalRow := recomputeRow headers c newRow
    some { sheet with data := jsSetRow sheet.data r finalRow }

/-- A small sheet used by the examples and witnesses below: exact
"Nota 1" / "Nota 2" / "Média" headers and one pupil row. -/
def notaSheet : Sheet :=
  { id := "s1", name := "Pauta 1",
    data := [[.str "Nota 1", .str "Nota 2", .str "Média"], [.str "7,5", .str "", .str ""]],
    conditionalFormats := [], validationRules := [],
    editCode := none, viewCode := none, accessCode := none,
    accessCodeExpiration := none, isShared := false }

example :
    (updateCell notaSheet true 1 1 (.str "8")).map (fun s => s.data.getD 1 []) =
      some [.str "7,5", .str "8", .str "7,8"] := by decide
example :
    (updateCell notaSheet true 1 1 (.str "8.5")).map (fun s => s.data.getD 1 []) =
      some [.str "7,5", .str "8.5", .str "8,0"] := by decide

/-- The group key of a data row in `splitSheetByColumn`:
`String(row[columnIndex] || "Sem Turma")` (any falsy cell — empty string,
`null`/`undefined`, `0`, `false` — falls back to the sentinel label). -/
def rowKey (columnIndex : Nat) (row : List CellValue) : String :=
  cvToString (jsOr (row.getD columnIndex .undef) (.str "Sem Turma"))

/-- Append a row to its group, creating the group on first sight (models
`groups[key].push(row)` on a plain object used as a dictionary). -/
def addToGroups (gs : List (String × List (List CellValue))) (key : String)
    (row : List CellValue) : List (String × List (List CellValue)) :=
  if gs.any (fun g => g.1 == key) then
    gs.map (fun g => if g.1 == key then (g.1, g.2 ++ [row]) else g)
  else gs ++ [(key, [row])]

/-- Fold the data rows into groups, skipping missing/empty rows as the
source's `if (!row || row.length === 0) return` does. -/
def buildGroups (c : Nat) (rows : List (List CellValue)) :
    List (String × List (List CellValue)) :=
  rows.foldl (fun gs row =>
    if row.length == 0 then gs else addToGroups gs (rowKey c row) row) []

/-- Is a string a canonical array-index property key (`"0"`, `"17"`, … below
2^32 - 1)?  Such keys are enumerated first and in ascending numeric order
by `Object.keys`. -/
def isArrayIndexKey (s : String) : Bool :=
  s ≠ "" && s.data.all isDigitCh && (s == "0" || s.data.headD '0' ≠ '0') &&
    digitsToNat s.data < 4294967295

/-- Insert a key into a numerically ascending list of array-index keys. -/
def insertByNum (s : String) : List String → List String
  | [] => [s]
  | t :: rest =>
    if digitsToNat s.data < digitsToNat t.data then s :: t :: rest
    else t :: insertByNum s rest

/-- Sort array-index keys numerically ascending. -/
def sortByNum (l : List String) : List String := l.foldr insertByNum []

/-- `Object.keys` enumeration order on a plain object: array-index keys in
ascending numeric order first, then the remaining keys in insertion order. -/
def jsObjectKeys (ks : List String) : List String :=
  sortByNum (ks.filter isArrayIndexKey) ++ ks.filter (fun k => !isArrayIndexKey k)

/-- The rows collected for a key (empty if the key has no group). -/
def lookupG (gs : List (String × List (List CellValue))) (k : String) :
    List (List CellValue) :=
  ((gs.find? (fun g => g.1 == k)).map Prod.snd).getD []

/-- `splitSheetByColumn` of the utilities module: fewer than two rows yield
no sheets; otherwise group the non-empty data rows by the stringified
(falsy-defaulted) cell of the split column and emit one sheet per group,
named `"<source name> - <key>"`, holding the shared header plus the
group's rows.  Fresh sheet ids come from the `fresh` supply (the source
draws them from a UUID generator). -/
def splitSheetByColumn (fresh : Nat → String) (sheet : Sheet) (columnIndex : Nat) :
    List Sheet :=
  if sheet.data.length < 2 then []
  else
    let header := sheet.data.getD 0 []
    let rows := sheet.data.drop 1
    let groups := buildGroups columnIndex rows
    (jsObjectKeys (groups.map Prod.fst)).enum.map (fun ik =>
      { id := fresh ik.1, name := sheet.name ++ " - " ++ ik.2,
        data := header :: lookupG groups ik.2,
        conditionalFormats := [], validationRules := [],
        editCode := none, viewCode := none, accessCode := none,
        accessCodeExpiration := none, isShared := false })

/-- A session access level for a sheet. -/
inductive AccessLevel where
  | edit | view
deriving DecidableEq, Repr

/-- The observable outcome of an unlock attempt: an access grant recorded in
`unlockedSheets`, or an error message shown to the user. -/
inductive UnlockOutcome where
  | granted (level : AccessLevel)
  | error (msg : String)
deriving DecidableEq, Repr

/-- The expiration test of `handleUnlockSheet`:
`sheet.accessCodeExpiration && now > sheet.accessCodeExpiration` (a zero
timestamp is falsy and disables the check, faithful to the source). -/
def unlockExpired (sheet : Sheet) (now : Nat) : Bool :=
  match sheet.accessCodeExpiration with
  | some e => e != 0 && now > e
  | none => false

/-- `handleUnlockSheet` of the application: reject with the expiration
message while expired; otherwise compare the trimmed, upper-cased input
for exact equality against `editCode` (grant edit), `viewCode` (grant
view), then the legacy `accessCode` (grant edit); reject anything else
with the incorrect-code message. -/
def handleUnlockSheet (sheet : Sheet) (accessCodeInput : String) (now : Nat) :
    UnlockOutcome :=
  if unlockExpired sheet now then
    .error "Os códigos expiraram. O administrador deve gerar novos."
  else
    let input := strToUpper (String.mk (trimChars accessCodeInput.data))
    if sheet.editCode = some input then .granted .edit
    else if sheet.viewCode = some input then .granted .view
    else if sheet.accessCode = some input then .granted .edit
    else .error "Código incorreto."

/-- Case-insensitive comparison of the trimmed input against a stored code,
following the specification's wording for `unlock`. -/
def ciCodeMatch (input : String) (code : Option String) : Bool :=
  match code with
  | some cd => strToUpper cd == strToUpper (String.mk (trimChars input.data))
  | none => false

/-- The unlock comparison chain as the specification words it: compare the
input case-insensitively against `editCode`, then `viewCode`, then the
legacy `accessCode`, rejecting anything else. -/
def unlockSpec (sheet : Sheet) (accessCodeInput : String) (_now : Nat) : UnlockOutcome :=
  if ciCodeMatch accessCodeInput sheet.editCode then .granted .edit
  else if ciCodeMatch accessCodeInput sheet.viewCode then .granted .view
  else if ciCodeMatch accessCodeInput sheet.accessCode then .granted .edit
  else .error "Código incorreto."

/-- The application state touched by sheet deletion: the sheet collection,
the active sheet, the per-session access map and the context menu. -/
structure AppState where
  sheets : List Sheet
  activeSheetId : Option String
  unlockedSheets : List (String × AccessLevel)
  contextMenu : Option String
deriving DecidableEq, Repr

/-- Lookup in the session access map. -/
def accessOf (m : List (String × AccessLevel)) (id : String) : Option AccessLevel :=
  (m.find? (fun e => e.1 == id)).map Prod.snd

/-- The state and the alert (if any) produced by a handler. -/
structure HandlerOutcome where
  state : AppState
  alert : Option String
deriving DecidableEq, Repr

/-- `handleDeleteSheet` of the application: nothing happens without a context
menu; a locked sheet without edit access is refused; the last remaining
sheet is refused; otherwise, upon confirmation, the sheet is removed and,
if it was active, the first remaining sheet becomes active. -/
def handleDeleteSheet (st : AppState) (confirmAnswer : Bool) : HandlerOutcome :=
  match st.contextMenu with
  | none => ⟨st, none⟩
  | some sid =>
    let sheet := st.sheets.find? (fun s => s.id == sid)
    if (match sheet with
        | some sh =>
          accessOf st.unlockedSheets sh.id ≠ some .edit &&
            (sh.editCode.isSome || sh.viewCode.isSome)
        | none => false) then
      ⟨{ st with contextMenu := none }, some "Apenas editores podem excluir planilhas."⟩
    else if st.sheets.length ≤ 1 then
      ⟨{ st with contextMenu := none },
        some "Não é possível excluir a única planilha existente."⟩
    else if confirmAnswer then
      let newSheets := st.sheets.filter (fun s => s.id != sid)
      let newActive :=
        if st.activeSheetId = some sid then newSheets.head?.map Sheet.id
        else st.activeSheetId
      ⟨{ st with sheets := newSheets, activeSheetId := newActive, contextMenu := none }, none⟩
    else ⟨{ st with contextMenu := none }, none⟩

/-- Heap addresses for the reference-semantics model of duplication. -/
abbrev Addr := Nat

/-- A sheet whose mutable parts (data rows, rule objects) are held by
reference, so that aliasing between a duplicate and its original is
observable. -/
structure RefSheet where
  id : String
  name : String
  dataRows : List Addr
  conditionalFormats : List Addr
  validationRules : List Addr
  editCode : Option String
  viewCode : Option String
  accessCode : Option String
  accessCodeExpiration : Option Nat
  isShared : Bool

/-- The heap backing `RefSheet`s: row contents and rule objects by address. -/
structure Heap where
  rowAt : Addr → List CellValue
  ruleAt : Addr → ConditionalRule
  vruleAt : Addr → ValidationRule
  next : Addr

/-- `JSON.parse(JSON.stringify(...))` on a cell turns `undefined` into `null`. -/
def jsonCloneCell : CellValue → CellValue
  | .undef => .null
  | v => v

/-- Allocate fresh copies of the given rows (the `JSON` deep copy of `data`):
each source row's contents are cloned into a fresh address. -/
def allocRows (h : Heap) : List Addr → List Addr × Heap
  | [] => ([], h)
  | a :: rest =>
    let h1 : Heap :=
      { h with
        rowAt := fun x => if x = h.next then (h.rowAt a).map jsonCloneCell else h.rowAt x,
        next := h.next + 1 }
    (h.next :: (allocRows h1 rest).1, (allocRows h1 rest).2)

/-- `handleDuplicateSheet` of the application, in the reference model: the
duplicate gets a new id and name, a deep copy of `data` (fresh row
addresses), spread copies of the two rule arrays (fresh array values but
the same rule object addresses), and the access fields copied as-is. -/
def handleDuplicateSheet (h : Heap) (sheet : RefSheet) (newId : String) :
    RefSheet × Heap :=
  let (newRows, h1) := allocRows h sheet.dataRows
  ({ sheet with
      id := newId,
      name := sheet.name ++ " (Cópia)",
      dataRows := newRows,
      conditionalFormats := sheet.conditionalFormats,
      validationRules := sheet.validationRules }, h1)

/-- Read a sheet's grid through the heap. -/
def readData (h : Heap) (s : RefSheet) : List (List CellValue) :=
  s.dataRows.map h.rowAt

/-- Read a sheet's conditional-format rules through the heap. -/
def readRules (h : Heap) (s : RefSheet) : List ConditionalRule :=
  s.conditionalFormats.map h.ruleAt

/-- In-place mutation of a row object. -/
def heapSetRow (h : Heap) (a : Addr) (row : List CellValue) : Heap :=
  { h with rowAt := fun x => if x = a then row else h.rowAt x }

/-- In-place mutation of a rule object. -/
def heapSetRule (h : Heap) (a : Addr) (rule : ConditionalRule) : Heap :=
  { h with ruleAt := fun x => if x = a then rule else h.ruleAt x }

/-- Two rules on column 0 that both match the value 3. -/
def c1rule1 : ConditionalRule :=
  { id := "a", columnIndex := 0, condition := .lt, value := .num (Frac.ofNat 5),
    style := { name := "Vermelho (Reprovado)", backgroundColor := "#FECACA", color := "#991B1B" } }

/-- Second, later rule of the C1 witness (also matches the value 3). -/
def c1rule2 : ConditionalRule :=
  { id := "b", columnIndex := 0, condition := .lt, value := .num (Frac.ofNat 10),
    style := { name := "Verde (Aprovado)", backgroundColor := "#BBF7D0", color := "#166534" } }

/-- A shared sheet with issued codes expiring at timestamp 1000, used for C2. -/
def c2sheet : Sheet :=
  { id := "s2", name := "P", data := [[]], conditionalFormats := [], validationRules := [],
    editCode := some "ABC123", viewCode := some "DEF456", accessCode := none,
    accessCodeExpiration := some 1000, isShared := true }

/-- A sheet carrying a lower-case edit code (no expiration), used for C4. -/
def c4sheet : Sheet :=
  { id := "s4", name := "P", data := [[]], conditionalFormats := [], validationRules := [],
    editCode := some "abc", viewCode := none, accessCode := none,
    accessCodeExpiration := none, isShared := true }

/-- A one-sheet application state with the delete context menu open. -/
def delSt1 : AppState :=
  { sheets := [notaSheet], activeSheetId := some "s1",
    unlockedSheets := [("s1", .edit)], contextMenu := some "s1" }

/-- The original sheet of the duplication scenario: one data row at address
0, one conditional-format rule object at address 1. -/
def c5origSheet : RefSheet :=
  { id := "o", name := "Orig", dataRows := [0], conditionalFormats := [1],
    validationRules := [], editCode := none, viewCode := none, accessCode := none,
    accessCodeExpiration := none, isShared := false }

/-- The rule object initially stored at address 1. -/
def c5rule : ConditionalRule :=
  { id := "r1", columnIndex := 0, condition := .lt, value := .num (Frac.ofNat 5),
    style := { name := "Vermelho (Reprovado)", backgroundColor := "#FECACA", color := "#991B1B" } }

/-- The mutated version of the rule object (threshold changed in place). -/
def c5ruleMut : ConditionalRule :=
  { id := "r1", columnIndex := 0, condition := .lt, value := .num (Frac.ofNat 10),
    style := { name := "Vermelho (Reprovado)", backgroundColor := "#FECACA", color := "#991B1B" } }

/-- The heap of the duplication scenario. -/
def c5heap : Heap :=
  { rowAt := fun _ => [.str "x"], ruleAt := fun _ => c5rule,
    vruleAt := fun _ => { id := "v", columnIndex := 0, type := .number,
                          min := none, max := none, options := none, errorMessage := none },
    next := 2 }

/-- The edited row of `updateCell`: the target row with the new cell value
assigned. -/
def editedRow (sheet : Sheet) (r c : Nat) (value : CellValue) : List CellValue :=
  jsSetElem (sheet.data.getD r []) c value

/-- The normalised headers `updateCell` sees after the edit (relevant when
the header row itself is edited). -/
def editedHeaders (sheet : Sheet) (r c : Nat) (value : CellValue) : List String :=
  headersOf (jsSetRow sheet.data r (editedRow sheet r c value))

/-- First-occurrence deduplication with an accumulator of already-seen keys:
the insertion order in which a plain object acquires its keys. -/
def firstDedupAux (seen : List String) : List String → List String
  | [] => []
  | k :: rest =>
    if k ∈ seen then firstDedupAux seen rest
    else k :: firstDedupAux (k :: seen) rest

/-- A sheet whose single data row holds the number 0 in the split column. -/
def zeroCellSheet : Sheet :=
  { id := "z", name := "S", data := [[.str "H"], [.num (Frac.ofNat 0)]],
    conditionalFormats := [], validationRules := [],
    editCode := none, viewCode := none, accessCode := none,
    accessCodeExpiration := none, isShared := false }

/-- A header-only sheet. -/
def headerOnlySheet : Sheet :=
  { id := "h1", name := "Pauta", data := [[.str "Nome", .str "Turma"]],
    conditionalFormats := [], validationRules := [],
    editCode := none, viewCode := none, accessCode := none,
    accessCodeExpiration := none, isShared := false }

section ListLemmas

variable {α : Type}

theorem getD_cons_zero (a : α) (t : List α) (d : α) : (a :: t).getD 0 d = a := rfl

theorem getD_cons_succ (a : α) (t : List α) (j : Nat) (d : α) :
    (a :: t).getD (j + 1) d = t.getD j d := rfl

theorem getD_beyond : ∀ (l : List α) (j : Nat) (d : α), l.length ≤ j → l.getD j d = d
  | [], _, _, _ => rfl
  | _ :: t, j + 1, d, h => by
    rw [getD_cons_succ]
    exact getD_beyond t j d (Nat.le_of_succ_le_succ h)

theorem getD_set_self : ∀ (l : List α) (i : Nat) (v d : α), i < l.length →
    (l.set i v).getD i d = v
  | _ :: _, 0, _, _, _ => rfl
  | a :: t, i + 1, v, d, h => by
    show (a :: t.set i v).getD (i + 1) d = v
    rw [getD_cons_succ]
    exact getD_set_self t i v d (Nat.lt_of_succ_lt_succ h)

theorem getD_set_ne : ∀ (l : List α) (i j : Nat) (v d : α), j ≠ i →
    (l.set i v).getD j d = l.getD j d
  | [], _, _, _, _, _ => rfl
  | a :: t, 0, 0, v, d, h => absurd rfl h
  | a :: t, 0, j + 1, v, d, _ => rfl
  | a :: t, i + 1, 0, v, d, _ => rfl
  | a :: t, i + 1, j + 1, v, d, h => by
    show (a :: t.set i v).getD (j + 1) d = (a :: t).getD (j + 1) d
    rw [getD_cons_succ, getD_cons_succ]
    exact getD_set_ne t i j v d (fun hji => h (congrArg Nat.succ hji))

theorem getD_append_left : ∀ (l1 l2 : List α) (j : Nat) (d : α), j < l1.length →
    (l1 ++ l2).getD j d = l1.getD j d
  | a :: t, l2, 0, d, _ => rfl
  | a :: t, l2, j + 1, d, h => by
    show (a :: (t ++ l2)).getD (j + 1) d = (a :: t).getD (j + 1) d
    rw [getD_cons_succ, getD_cons_succ]
    exact getD_append_left t l2 j d (Nat.lt_of_succ_lt_succ h)

theorem getD_append_right : ∀ (l1 l2 : List α) (j : Nat) (d : α), l1.length ≤ j →
    (l1 ++ l2).getD j d = l2.getD (j - l1.length) d
  | [], l2, j, d, _ => rfl
  | a :: t, l2, j + 1, d, h => by
    show (a :: (t ++ l2)).getD (j + 1) d = l2.getD (j + 1 - (t.length + 1)) d
    rw [getD_cons_succ, Nat.succ_sub_succ]
    exact getD_append_right t l2 j d (Nat.le_of_succ_le_succ h)

theorem getD_replicate : ∀ (n : Nat) (a : α) (j : Nat) (d : α),
    (List.replicate n a).getD j d = if j < n then a else d
  | 0, _, j, _ => by simp [getD_beyond]
  | n + 1, a, 0, d => by simp [List.replicate]
  | n + 1, a, j + 1, d => by
    show (a :: List.replicate n a).getD (j + 1) d = _
    rw [getD_cons_succ, getD_replicate n a j d]
    simp [Nat.succ_lt_succ_iff]

end ListLemmas

theorem jsSetElem_getD_self (l : List CellValue) (i : Nat) (v : CellValue) :
    (jsSetElem l i v).getD i .undef = v := by
  unfold jsSetElem
  split
  · exact getD_set_self l i v .undef (by assumption)
  · rename_i h
    have hle : l.length ≤ i := Nat.le_of_not_lt h
    rw [getD_append_right (l ++ List.replicate (i - l.length) CellValue.undef) [v] i .undef
        (by rw [List.length_append, List.length_replicate]; omega)]
    rw [List.length_append, List.length_replicate]
    have h0 : i - (l.length + (i - l.length)) = 0 := by omega
    rw [h0]
    rfl

theorem jsSetElem_getD_ne (l : List CellValue) (i j : Nat) (v : CellValue) (h : j ≠ i) :
    (jsSetElem l i v).getD j .undef = l.getD j .undef := by
  unfold jsSetElem
  split
  · exact getD_set_ne l i j v .undef h
  · rename_i hlt
    have hle : l.length ≤ i := Nat.le_of_not_lt hlt
    by_cases hj : j < l.length
    · rw [getD_append_left (l ++ List.replicate (i - l.length) CellValue.undef) [v] j .undef
          (by rw [List.length_append, List.length_replicate]; omega)]
      exact getD_append_left l _ j .undef hj
    · have hjl : l.length ≤ j := Nat.le_of_not_lt hj
      rw [getD_beyond l j .undef hjl]
      by_cases hji : j < i
      · rw [getD_append_left (l ++ List.replicate (i - l.length) CellValue.undef) [v] j .undef
            (by rw [List.length_append, List.length_replicate]; omega)]
        rw [getD_append_right l _ j .undef hjl, getD_replicate]
        rw [if_pos (by omega)]
      · have hij : i < j := Nat.lt_of_le_of_ne (Nat.le_of_not_lt hji) (fun he => h he.symm)
        rw [getD_beyond]
        rw [List.length_append, List.length_append, List.length_replicate]
        simp only [List.length_cons, List.length_nil]
        omega

theorem jsSetElem_length (l : List CellValue) (i : Nat) (v : CellValue) :
    (jsSetElem l i v).length = max l.length (i + 1) := by
  unfold jsSetElem
  split
  · rw [List.length_set]; omega
  · rw [List.length_append, List.length_append, List.length_replicate]
    simp only [List.length_cons, List.length_nil]
    omega

theorem jsSetRow_getD_self (l : List (List CellValue)) (i : Nat) (row : List CellValue) :
    (jsSetRow l i row).getD i [] = row := by
  unfold jsSetRow
  split
  · exact getD_set_self l i row [] (by assumption)
  · rename_i h
    have hle : l.length ≤ i := Nat.le_of_not_lt h
    rw [getD_append_right (l ++ List.replicate (i - l.length) ([] : List CellValue)) [row] i []
        (by rw [List.length_append, List.length_replicate]; omega)]
    rw [List.length_append, List.length_replicate]
    have h0 : i - (l.length + (i - l.length)) = 0 := by omega
    rw [h0]
    rfl

theorem jsSetRow_getD_ne (l : List (List CellValue)) (i j : Nat) (row : List CellValue)
    (h : j ≠ i) : (jsSetRow l i row).getD j [] = l.getD j [] := by
  unfold jsSetRow
  split
  · exact getD_set_ne l i j row [] h
  · rename_i hlt
    have hle : l.length ≤ i := Nat.le_of_not_lt hlt
    by_cases hj : j < l.length
    · rw [getD_append_left (l ++ List.replicate (i - l.length) ([] : List CellValue)) [row] j []
          (by rw [List.length_append, List.length_replicate]; omega)]
      exact getD_append_left l _ j [] hj
    · have hjl : l.length ≤ j := Nat.le_of_not_lt hj
      rw [getD_beyond l j [] hjl]
      by_cases hji : j < i
      · rw [getD_append_left (l ++ List.replicate (i - l.length) ([] : List CellValue)) [row] j []
            (by rw [List.length_append, List.length_replicate]; omega)]
        rw [getD_append_right l _ j [] hjl, getD_replicate]
        rw [if_pos (by omega)]
      · have hij : i < j := Nat.lt_of_le_of_ne (Nat.le_of_not_lt hji) (fun he => h he.symm)
        rw [getD_beyond]
        rw [List.length_append, List.length_append, List.length_replicate]
        simp only [List.length_cons, List.length_nil]
        omega

theorem padTo_getD (l : List CellValue) (n : Nat) (fill : CellValue) (j : Nat) :
    (padTo l n fill).getD j .undef =
      if j < l.length then l.getD j .undef
      else if j < n then fill else .undef := by
  unfold padTo
  by_cases hj : j < l.length
  · rw [getD_append_left _ _ _ _ hj, if_pos hj]
  · have hjl : l.length ≤ j := Nat.le_of_not_lt hj
    rw [getD_append_right _ _ _ _ hjl, getD_replicate, if_neg hj]
    by_cases hn : j < n
    · rw [if_pos (by omega), if_pos hn]
    · rw [if_neg (by omega), if_neg hn]

/-- C1: for every list of conditional rules, row (other than the never-styled
header row), column index and cell value, `getCellStyle` returns exactly
the style of the first rule of that column that matches the value, in
insertion order (`List.find?` returns the earliest match), and no style
when no rule of the column matches. -/
theorem getCellStyle_first_match (rules : List ConditionalRule) (r c : Nat)
    (v : CellValue) (hr : r ≠ 0) :
    getCellStyle rules r c v =
      ((rules.filter (fun ru => ru.columnIndex == c)).find? (ruleMatches v)).map
        (fun ru => { backgroundColor := ru.style.backgroundColor,
                     color := ru.style.color, fontWeight := "500" }) := by
  unfold getCellStyle
  rw [if_neg hr]
  induction rules.filter (fun ru => ru.columnIndex == c) with
  | nil => rfl
  | cons head tail ih =>
    unfold styleLoop
    by_cases h : ruleMatches v head
    · simp [h, List.find?]
    · simp [h, List.find?, ih]

/-- Witness for C1: with two rules on the same column that both match, the
earlier rule's style is returned. -/
theorem getCellStyle_first_match_witness :
    getCellStyle [c1rule1, c1rule2] 1 0 (.str "3") =
      some { backgroundColor := "#FECACA", color := "#991B1B", fontWeight := "500" } :=
  (getCellStyle_first_match [c1rule1, c1rule2] 1 0 (.str "3") (by decide)).trans (by decide)

/-- C2 counterexample: at `now` exactly equal to `accessCodeExpiration` —
which the claim counts as Expired (`now >= expiration`) — the correct
edit code still unlocks and grants edit access; only strictly after the
timestamp does the expiration rejection kick in. -/
theorem handleUnlockSheet_boundary_counterexample :
    handleUnlockSheet c2sheet "ABC123" 1000 = .granted .edit ∧
    handleUnlockSheet c2sheet "ABC123" 1001 =
      .error "Os códigos expiraram. O administrador deve gerar novos." := by
  constructor <;> decide

/-- C2 amended: once `now` is strictly greater than the (nonzero)
`accessCodeExpiration`, `handleUnlockSheet` rejects with the
expiration-specific error and grants no access level, for every input —
including the sheet's own edit, view or legacy codes. -/
theorem handleUnlockSheet_expired_rejects (sheet : Sheet) (input : String) (now e : Nat)
    (he : sheet.accessCodeExpiration = some e) (he0 : e ≠ 0) (hlt : e < now) :
    handleUnlockSheet sheet input now =
      .error "Os códigos expiraram. O administrador deve gerar novos." := by
  have hexp : unlockExpired sheet now = true := by
    unfold unlockExpired
    rw [he]
    simp [he0, hlt]
  unfold handleUnlockSheet
  rw [hexp]
  rfl

/-- Witness for C2 (amended): strictly after expiration even the correct
edit code is rejected with the expiration message. -/
theorem handleUnlockSheet_expired_rejects_witness :
    handleUnlockSheet c2sheet "ABC123" 2000 =
      .error "Os códigos expiraram. O administrador deve gerar novos." :=
  handleUnlockSheet_expired_rejects c2sheet "ABC123" 2000 1000 rfl (by decide) (by decide)

/-- C4 counterexample: the source upper-cases the input and compares it for
exact equality, so an input that equals a stored lower-case code — even
literally, and a fortiori case-insensitively — is rejected, where the
claimed case-insensitive comparison would grant edit access. -/
theorem handleUnlockSheet_case_counterexample :
    handleUnlockSheet c4sheet "abc" 0 = .error "Código incorreto." ∧
    unlockSpec c4sheet "abc" 0 = .granted .edit := by
  constructor <;> decide

/-- C4 amended: on a non-expired sheet whose stored codes are upper-case (as
every code the application generates is), `handleUnlockSheet` behaves
exactly as the claimed case-insensitive comparison chain: `editCode`
grants edit, then `viewCode` grants view, then the legacy `accessCode`
grants edit, and any input matching none of them — even up to letter
case — is rejected with the incorrect-code message and grants nothing. -/
theorem handleUnlockSheet_matches_spec (sheet : Sheet) (input : String) (now : Nat)
    (hexp : unlockExpired sheet now = false)
    (hE : ∀ cd, sheet.editCode = some cd → strToUpper cd = cd)
    (hV : ∀ cd, sheet.viewCode = some cd → strToUpper cd = cd)
    (hA : ∀ cd, sheet.accessCode = some cd → strToUpper cd = cd) :
    handleUnlockSheet sheet input now = unlockSpec sheet input now := by
  have hci : ∀ (code : Option String), (∀ cd, code = some cd → strToUpper cd = cd) →
      ciCodeMatch input code =
        decide (code = some (strToUpper (String.mk (trimChars input.data)))) := by
    intro code hcode
    match code with
    | none => simp [ciCodeMatch]
    | some cd =>
      have hup := hcode cd rfl
      show (strToUpper cd == strToUpper (String.mk (trimChars input.data))) = _
      rw [hup]
      by_cases h : cd = strToUpper (String.mk (trimChars input.data))
      · simp [h]
      · simp [h]
  unfold handleUnlockSheet unlockSpec
  rw [hexp, hci sheet.editCode hE, hci sheet.viewCode hV, hci sheet.accessCode hA]
  simp only [Bool.false_eq_true, if_false, decide_eq_true_eq]

/-- Witness for C4 (amended): a lower-case input unlocks edit access against
an upper-case stored edit code, exactly as the case-insensitive chain
prescribes. -/
theorem handleUnlockSheet_matches_spec_witness :
    handleUnlockSheet c2sheet "abc123" 500 = unlockSpec c2sheet "abc123" 500 :=
  handleUnlockSheet_matches_spec c2sheet "abc123" 500 (by decide)
    (fun cd h => by cases h; decide) (fun cd h => by cases h; decide)
    (fun cd h => by cases h)

theorem Frac.blt_eq_false_of_ble (a b : Frac) (h : a.ble b = true) : b.blt a = false := by
  unfold Frac.ble Frac.blt Frac.beq at *
  simp only [Bool.or_eq_true, decide_eq_true_eq, beq_iff_eq] at h
  simp only [decide_eq_false_iff_not]
  generalize hX : a.num * (b.den : Int) = X at *
  generalize hY : b.num * (a.den : Int) = Y at *
  omega

theorem boundLow_false_of_ble (minF : Option String) (q : Frac) (m : String) (qm : Frac)
    (hm : minF = some m) (hqm : jsNumberOfString m = some qm) (hle : qm.ble q = true) :
    boundViolatedLow minF q = false := by
  subst hm
  show (if m = "" then false
        else match jsNumberOfString m with | some x => q.blt x | none => false) = false
  by_cases he : m = ""
  · rw [if_pos he]
  · rw [if_neg he, hqm]
    exact Frac.blt_eq_false_of_ble qm q hle

theorem boundHigh_false_of_ble (maxF : Option String) (q : Frac) (m : String) (qm : Frac)
    (hm : maxF = some m) (hqm : jsNumberOfString m = some qm) (hle : q.ble qm = true) :
    boundViolatedHigh maxF q = false := by
  subst hm
  show (if m = "" then false
        else match jsNumberOfString m with | some x => x.blt q | none => false) = false
  by_cases he : m = ""
  · rw [if_pos he]
  · rw [if_neg he, hqm]
    exact Frac.blt_eq_false_of_ble q qm hle

theorem boundLow_true_of_blt (m : String) (q qm : Frac) (hne : m ≠ "")
    (hqm : jsNumberOfString m = some qm) (hblt : q.blt qm = true) :
    boundViolatedLow (some m) q = true := by
  show (if m = "" then false
        else match jsNumberOfString m with | some x => q.blt x | none => false) = true
  rw [if_neg hne, hqm]
  exact hblt

theorem boundHigh_true_of_blt (m : String) (q qm : Frac) (hne : m ≠ "")
    (hqm : jsNumberOfString m = some qm) (hblt : qm.blt q = true) :
    boundViolatedHigh (some m) q = true := by
  show (if m = "" then false
        else match jsNumberOfString m with | some x => x.blt q | none => false) = true
  rw [if_neg hne, hqm]
  exact hblt

/-- C7: for a `number` validation rule and a non-empty value, `validateValue`
rejects an unparsable value with the numeric message; rejects a parsed
value strictly below a set numeric `min` (respectively strictly above a
set numeric `max`, when the `min` check passes) with the bound-specific
message naming that bound; and accepts every parsed value lying within
the inclusive bounds. -/
theorem validateValue_number_bounds (v : CellValue) (rule : ValidationRule)
    (hty : rule.type = .number)
    (hv : ¬(v = .str "" ∨ v = .null ∨ v = .undef)) :
    (jsNumber v = none →
      validateValue v rule = ⟨false, some "O valor deve ser um número."⟩) ∧
    (∀ q m qm, jsNumber v = some q → rule.min = some m → m ≠ "" →
      jsNumberOfString m = some qm → q.blt qm = true →
      validateValue v rule =
        ⟨false, some ("O valor deve ser maior ou igual a " ++ m ++ ".")⟩) ∧
    (∀ q M qM, jsNumber v = some q → rule.max = some M → M ≠ "" →
      jsNumberOfString M = some qM → qM.blt q = true →
      boundViolatedLow rule.min q = false →
      validateValue v rule =
        ⟨false, some ("O valor deve ser menor ou igual a " ++ M ++ ".")⟩) ∧
    (∀ q m qm M qM, jsNumber v = some q →
      rule.min = some m → jsNumberOfString m = some qm →
      rule.max = some M → jsNumberOfString M = some qM →
      qm.ble q = true → q.ble qM = true →
      validateValue v rule = ⟨true, none⟩) := by
  refine ⟨?_, ?_, ?_, ?_⟩
  · intro hnone
    simp [validateValue, hv, hty, hnone]
  · intro q m qm hq hm hne hqm hblt
    have hb := boundLow_true_of_blt m q qm hne hqm hblt
    simp [validateValue, hv, hty, hq, hm, hb]
  · intro q M qM hq hM hne hqM hblt hlo
    have hb := boundHigh_true_of_blt M q qM hne hqM hblt
    simp [validateValue, hv, hty, hq, hlo, hM, hb]
  · intro q m qm M qM hq hm hqm hM hqM hle1 hle2
    have hlo := boundLow_false_of_ble rule.min q m qm hm hqm hle1
    have hhi := boundHigh_false_of_ble rule.max q M qM hM hqM hle2
    simp [validateValue, hv, hty, hq, hlo, hhi]

/-- Witness for C7: the value 25 against a 0..20 number rule is rejected
with the max-specific message. -/
theorem validateValue_number_bounds_witness :
    validateValue (.str "25") numRule0to20 =
      ⟨false, some "O valor deve ser menor ou igual a 20."⟩ :=
  ((validateValue_number_bounds (.str "25") numRule0to20 rfl (by decide)).2.2.1)
    ⟨25, 1⟩ "20" ⟨20, 1⟩ (by decide) rfl (by decide) (by decide) (by decide) (by decide)

theorem sheets_filter_ne_nonempty :
    ∀ (l : List Sheet) (x : String), (l.map Sheet.id).Nodup → 2 ≤ l.length →
      l.filter (fun s => s.id != x) ≠ []
  | [], _, _, hlen => by simp at hlen
  | s :: t, x, hnd, hlen => by
    by_cases hs : (s.id != x) = true
    · rw [List.filter_cons, if_pos hs]
      exact List.cons_ne_nil _ _
    · have hsx : s.id = x := by simpa using hs
      rw [List.filter_cons, if_neg hs]
      have hnotin : s.id ∉ t.map Sheet.id := (List.nodup_cons.mp (by simpa using hnd)).1
      have hall : ∀ a ∈ t, (a.id != x) = true := by
        intro a ha
        have hax : a.id ≠ x := fun he => hnotin (by
          rw [hsx, ← he]
          exact List.mem_map_of_mem Sheet.id ha)
        simpa using hax
      rw [List.filter_eq_self.mpr hall]
      intro hnil
      rw [hnil] at hlen
      simp at hlen

/-- C6: deleting on a one-sheet store is refused: the sheet collection and
the active sheet are unchanged and a user-facing message is shown
(either the permission refusal or the last-sheet refusal).  Moreover —
the invariant part of the claim — on any state with distinct sheet ids,
`handleDeleteSheet` never empties a non-empty store. -/
theorem handleDeleteSheet_last_refused (st : AppState) (sid : String)
    (confirmAnswer : Bool) (hone : st.sheets.length = 1)
    (hcm : st.contextMenu = some sid) :
    ((handleDeleteSheet st confirmAnswer).state.sheets = st.sheets ∧
     (handleDeleteSheet st confirmAnswer).state.activeSheetId = st.activeSheetId ∧
     (handleDeleteSheet st confirmAnswer).alert.isSome = true) ∧
    (∀ (st2 : AppState) (conf2 : Bool), (st2.sheets.map Sheet.id).Nodup →
      st2.sheets ≠ [] → (handleDeleteSheet st2 conf2).state.sheets ≠ []) := by
  constructor
  · simp only [handleDeleteSheet, hcm]
    split
    · exact ⟨rfl, rfl, rfl⟩
    · rw [if_pos (by omega)]
      exact ⟨rfl, rfl, rfl⟩
  · intro st2 conf2 hnd hne
    cases hc2 : st2.contextMenu with
    | none => simpa only [handleDeleteSheet, hc2] using hne
    | some sid2 =>
      simp only [handleDeleteSheet, hc2]
      split
      · exact hne
      · split
        · exact hne
        · rename_i hlen
          split
          · exact sheets_filter_ne_nonempty st2.sheets sid2 hnd (by omega)
          · exact hne

/-- Witness for C6: deleting the only sheet leaves the store and the active
sheet unchanged and shows a message. -/
theorem handleDeleteSheet_last_refused_witness :
    (handleDeleteSheet delSt1 true).state.sheets = delSt1.sheets ∧
    (handleDeleteSheet delSt1 true).state.activeSheetId = delSt1.activeSheetId ∧
    (handleDeleteSheet delSt1 true).alert.isSome = true :=
  (handleDeleteSheet_last_refused delSt1 "s1" true rfl rfl).1

theorem allocRows_fresh_ge :
    ∀ (l : List Addr) (h : Heap) (a : Addr), a ∈ (allocRows h l).1 → h.next ≤ a
  | [], _, _, ha => by simp [allocRows] at ha
  | b :: rest, h, a, ha => by
    simp only [allocRows, List.mem_cons] at ha
    rcases ha with ha | ha
    · exact Nat.le_of_eq ha.symm
    · exact Nat.le_of_succ_le (allocRows_fresh_ge rest _ a ha)

theorem allocRows_preserves :
    ∀ (l : List Addr) (h : Heap) (x : Addr), x < h.next →
      (allocRows h l).2.rowAt x = h.rowAt x
  | [], _, _, _ => rfl
  | b :: rest, h, x, hx => by
    have hstep :
        (allocRows h (b :: rest)).2 =
          (allocRows
            { h with
              rowAt := fun y => if y = h.next then (h.rowAt b).map jsonCloneCell else h.rowAt y,
              next := h.next + 1 } rest).2 := rfl
    rw [hstep, allocRows_preserves rest _ x (Nat.lt_succ_of_lt hx)]
    show (if x = h.next then (h.rowAt b).map jsonCloneCell else h.rowAt x) = h.rowAt x
    rw [if_neg (Nat.ne_of_lt hx)]

/-- C5 counterexample: duplication spread-copies the rule arrays, so the rule
objects themselves are shared; mutating the rule object reached through
the duplicate's `conditionalFormats` changes the rule the original sheet
reads — the claimed no-aliasing property fails for individual rule
objects. -/
theorem handleDuplicateSheet_rule_alias_counterexample :
    readRules c5heap c5origSheet = [c5rule] ∧
    (let dh := handleDuplicateSheet c5heap c5origSheet "d"
     readRules (heapSetRule dh.2 (dh.1.conditionalFormats.getD 0 99) c5ruleMut)
       c5origSheet = [c5ruleMut]) ∧
    c5ruleMut ≠ c5rule := by
  refine ⟨by decide, by decide, by decide⟩

/-- C5 amended: duplication deep-copies `data` — the duplicate's row
addresses are fresh, the original's grid reads unchanged, and mutating
any of the duplicate's rows never changes the original's grid — while
the rule arrays are fresh array values whose rule objects are shared
with the original (so replacing rules in the duplicate's arrays leaves
the original alone, but in-place mutation of a rule object is visible to
both). -/
theorem handleDuplicateSheet_deep_copies_data (h : Heap) (s : RefSheet) (newId : String)
    (wf : ∀ a ∈ s.dataRows, a < h.next) :
    (∀ a ∈ (handleDuplicateSheet h s newId).1.dataRows, a ∉ s.dataRows) ∧
    readData (handleDuplicateSheet h s newId).2 s = readData h s ∧
    (∀ a row, a ∈ (handleDuplicateSheet h s newId).1.dataRows →
      readData (heapSetRow (handleDuplicateSheet h s newId).2 a row) s =
        readData (handleDuplicateSheet h s newId).2 s) ∧
    (handleDuplicateSheet h s newId).1.conditionalFormats = s.conditionalFormats ∧
    (handleDuplicateSheet h s newId).1.validationRules = s.validationRules := by
  have hfresh : ∀ a ∈ (handleDuplicateSheet h s newId).1.dataRows, h.next ≤ a :=
    fun a ha => allocRows_fresh_ge s.dataRows h a ha
  refine ⟨?_, ?_, ?_, rfl, rfl⟩
  · intro a ha hmem
    exact absurd (wf a hmem) (Nat.not_lt.mpr (hfresh a ha))
  · unfold readData
    apply List.map_congr_left
    intro a ha
    exact allocRows_preserves s.dataRows h a (wf a ha)
  · intro a row ha
    unfold readData heapSetRow
    apply List.map_congr_left
    intro b hb
    simp only
    rw [if_neg]
    intro hba
    exact absurd (hba ▸ wf b hb) (Nat.not_lt.mpr (hfresh a ha))

/-- Witness for C5 (amended): in the concrete scenario the duplicate leaves
the original's grid unchanged and mutating the duplicate's (fresh) data
row does not change what the original reads. -/
theorem handleDuplicateSheet_deep_copies_data_witness :
    readData (handleDuplicateSheet c5heap c5origSheet "d").2 c5origSheet =
      readData c5heap c5origSheet ∧
    readData
      (heapSetRow (handleDuplicateSheet c5heap c5origSheet "d").2 2 [.str "mutated"])
      c5origSheet =
      readData (handleDuplicateSheet c5heap c5origSheet "d").2 c5origSheet :=
  ⟨(handleDuplicateSheet_deep_copies_data c5heap c5origSheet "d" (by decide)).2.1,
   (handleDuplicateSheet_deep_copies_data c5heap c5origSheet "d" (by decide)).2.2.1
     2 [.str "mutated"] (by decide)⟩

theorem avgResult_fires (headers : List String) (c : Nat) (newRow : List CellValue)
    (i1 i2 mi : Nat) (q1 q2 : Frac)
    (h1 : headers.findIdx? isNota1Hdr = some i1)
    (h2 : headers.findIdx? isNota2Hdr = some i2)
    (hm : headers.findIdx? isMediaHdr = some mi)
    (hcol : (c == i1 || c == i2) = true)
    (hq1 : operandParse (newRow.getD i1 .undef) = some q1)
    (hq2 : operandParse (newRow.getD i2 .undef) = some q2)
    (hne1 : newRow.getD i1 .undef ≠ .str "")
    (hne2 : newRow.getD i2 .undef ≠ .str "") :
    avgResult headers c newRow =
      some (mi,
        if (cvToString (newRow.getD i1 .undef)).data.contains ',' ||
           (cvToString (newRow.getD i2 .undef)).data.contains ','
        then strReplaceFirst (toFixed1 ((q1.add q2).divNat 2)) '.' ','
        else toFixed1 ((q1.add q2).divNat 2)) := by
  unfold avgResult
  simp only [h1, h2, hm, hcol, if_true, hq1, hq2]
  rw [if_pos ⟨hne1, hne2⟩]

theorem updateCell_runs (sheet : Sheet) (r c : Nat) (value : CellValue)
    (hval : ((sheet.validationRules.find? (fun rule => rule.columnIndex == c)).all
        (fun rule => (validateValue value rule).valid)) = true) :
    updateCell sheet true r c value =
      some { sheet with
              data := jsSetRow sheet.data r
                (recomputeRow (editedHeaders sheet r c value) c
                  (editedRow sheet r c value)) } := by
  unfold updateCell
  rw [hval]
  rfl

/-- C3: an accepted cell write into one of the grade columns of a row whose
(normalised) headers resolve a Nota 1, a Nota 2 and a Média column, with
both operands non-empty and parseable after comma normalisation, writes
the one-decimal rounding of the operands' mean into that row's média
cell, comma-rendered exactly when either operand as stored contains a
comma. -/
theorem updateCell_average (sheet : Sheet) (r c i1 i2 mi : Nat) (value : CellValue)
    (q1 q2 : Frac)
    (hval : ((sheet.validationRules.find? (fun rule => rule.columnIndex == c)).all
        (fun rule => (validateValue value rule).valid)) = true)
    (h1 : (editedHeaders sheet r c value).findIdx? isNota1Hdr = some i1)
    (h2 : (editedHeaders sheet r c value).findIdx? isNota2Hdr = some i2)
    (hm : (editedHeaders sheet r c value).findIdx? isMediaHdr = some mi)
    (hcol : c = i1 ∨ c = i2)
    (hq1 : operandParse ((editedRow sheet r c value).getD i1 .undef) = some q1)
    (hq2 : operandParse ((editedRow sheet r c value).getD i2 .undef) = some q2)
    (hne1 : (editedRow sheet r c value).getD i1 .undef ≠ .str "")
    (hne2 : (editedRow sheet r c value).getD i2 .undef ≠ .str "") :
    ∃ s', updateCell sheet true r c value = some s' ∧
      (s'.data.getD r []).getD mi .undef =
        .str (if (cvToString ((editedRow sheet r c value).getD i1 .undef)).data.contains ',' ||
                 (cvToString ((editedRow sheet r c value).getD i2 .undef)).data.contains ','
              then strReplaceFirst (toFixed1 ((q1.add q2).divNat 2)) '.' ','
              else toFixed1 ((q1.add q2).divNat 2)) := by
  have hcolb : (c == i1 || c == i2) = true := by
    rcases hcol with h | h <;> simp [h]
  have havg := avgResult_fires (editedHeaders sheet r c value) c
    (editedRow sheet r c value) i1 i2 mi q1 q2 h1 h2 hm hcolb hq1 hq2 hne1 hne2
  refine ⟨_, updateCell_runs sheet r c value hval, ?_⟩
  show ((jsSetRow sheet.data r
      (recomputeRow (editedHeaders sheet r c value) c (editedRow sheet r c value))).getD r []).getD
        mi .undef = _
  rw [jsSetRow_getD_self]
  unfold recomputeRow
  rw [havg]
  exact jsSetElem_getD_self _ mi _

/-- Witness for C3: writing Nota 2 = 8 next to Nota 1 = 7,5 under exact
headers Nota 1 / Nota 2 / Média produces média 7,8 (comma-rendered). -/
theorem updateCell_average_witness :
    ∃ s', updateCell notaSheet true 1 1 (.str "8") = some s' ∧
      (s'.data.getD 1 []).getD 2 .undef = .str "7,8" := by
  obtain ⟨s', hs, hcell⟩ := updateCell_average notaSheet 1 1 0 1 2 (.str "8")
    ⟨75, 10⟩ ⟨8, 1⟩ rfl (by decide) (by decide) (by decide) (Or.inr rfl)
    (by decide) (by decide) (by decide) (by decide)
  exact ⟨s', hs, by rw [hcell]; decide⟩

theorem updateCell_some_eq (sheet : Sheet) (r c : Nat) (value : CellValue) (s' : Sheet)
    (h : updateCell sheet true r c value = some s') :
    s' = { sheet with
            data := jsSetRow sheet.data r
              (recomputeRow (editedHeaders sheet r c value) c
                (editedRow sheet r c value)) } := by
  unfold updateCell at h
  by_cases hval : ((sheet.validationRules.find? (fun rule => rule.columnIndex == c)).all
      (fun rule => (validateValue value rule).valid)) = true
  · rw [hval] at h
    exact (Option.some.inj h).symm
  · have hfalse : ((sheet.validationRules.find? (fun rule => rule.columnIndex == c)).all
        (fun rule => (validateValue value rule).valid)) = false := by
      revert hval
      cases (sheet.validationRules.find? (fun rule => rule.columnIndex == c)).all
        (fun rule => (validateValue value rule).valid) <;> simp
    rw [hfalse] at h
    exact Option.noConfusion h

theorem recomputeRow_getD_other (headers : List String) (c : Nat)
    (newRow : List CellValue) (j : Nat)
    (hj : ∀ mi out, avgResult headers c newRow = some (mi, out) → j ≠ mi) :
    (recomputeRow headers c newRow).getD j .undef = newRow.getD j .undef ∨
    (recomputeRow headers c newRow).getD j .undef = .str "" := by
  unfold recomputeRow
  cases havg : avgResult headers c newRow with
  | none => exact Or.inl rfl
  | some p =>
    obtain ⟨mi, out⟩ := p
    have hjmi : j ≠ mi := hj mi out havg
    rw [jsSetElem_getD_ne _ mi j _ hjmi, padTo_getD]
    by_cases h1 : j < newRow.length
    · rw [if_pos h1]
      exact Or.inl rfl
    · rw [if_neg h1]
      by_cases h2 : j < mi + 1
      · rw [if_pos h2]
        exact Or.inr rfl
      · rw [if_neg h2]
        exact Or.inl (getD_beyond newRow j .undef (Nat.le_of_not_lt h1)).symm

/-- C9: an accepted cell write at row `r`, column `c` changes no sheet field
other than `data`; it leaves every row other than `r` unchanged; and
within row `r` every cell other than the edited cell and (when the
reactive average fires) the média cell either keeps its value or is one
of the empty-string cells appended to reach the média column. -/
theorem updateCell_frame (sheet : Sheet) (r c : Nat) (value : CellValue) (s' : Sheet)
    (h : updateCell sheet true r c value = some s') :
    s'.id = sheet.id ∧ s'.name = sheet.name ∧
    s'.conditionalFormats = sheet.conditionalFormats ∧
    s'.validationRules = sheet.validationRules ∧
    s'.editCode = sheet.editCode ∧ s'.viewCode = sheet.viewCode ∧
    s'.accessCode = sheet.accessCode ∧
    s'.accessCodeExpiration = sheet.accessCodeExpiration ∧
    s'.isShared = sheet.isShared ∧
    (∀ i, i ≠ r → s'.data.getD i [] = sheet.data.getD i []) ∧
    (∀ j, j ≠ c →
      (∀ mi out, avgResult (editedHeaders sheet r c value) c
          (editedRow sheet r c value) = some (mi, out) → j ≠ mi) →
      ((s'.data.getD r []).getD j .undef = (sheet.data.getD r []).getD j .undef ∨
       (s'.data.getD r []).getD j .undef = .str "")) := by
  have hs := updateCell_some_eq sheet r c value s' h
  subst hs
  refine ⟨rfl, rfl, rfl, rfl, rfl, rfl, rfl, rfl, rfl, ?_, ?_⟩
  · intro i hi
    exact jsSetRow_getD_ne sheet.data r i _ hi
  · intro j hjc hjm
    show ((jsSetRow sheet.data r
        (recomputeRow (editedHeaders sheet r c value) c (editedRow sheet r c value))).getD
          r []).getD j .undef = _ ∨ _
    rw [jsSetRow_getD_self]
    rcases recomputeRow_getD_other (editedHeaders sheet r c value) c
        (editedRow sheet r c value) j hjm with hcase | hcase
    · rw [hcase]
      unfold editedRow
      rw [jsSetElem_getD_ne _ c j value hjc]
      exact Or.inl rfl
    · exact Or.inr hcase

/-- Witness for C9: in the concrete average scenario, row 0 (the header row)
is untouched, and within the edited row the Nota 1 cell keeps its value. -/
theorem updateCell_frame_witness :
    ∃ s', updateCell notaSheet true 1 1 (.str "8") = some s' ∧
      s'.name = notaSheet.name ∧
      s'.data.getD 0 [] = notaSheet.data.getD 0 [] ∧
      ((s'.data.getD 1 []).getD 0 .undef = (notaSheet.data.getD 1 []).getD 0 .undef ∨
       (s'.data.getD 1 []).getD 0 .undef = .str "") := by
  have hrun : updateCell notaSheet true 1 1 (.str "8") =
      some { notaSheet with
              data := jsSetRow notaSheet.data 1
                (recomputeRow (editedHeaders notaSheet 1 1 (.str "8")) 1
                  (editedRow notaSheet 1 1 (.str "8"))) } := by
    unfold updateCell
    rw [show ((notaSheet.validationRules.find? (fun rule => rule.columnIndex == 1)).all
        (fun rule => (validateValue (.str "8") rule).valid)) = true from rfl]
    rfl
  obtain ⟨h1, h2, h3, h4, h5, h6, h7, h8, h9, h10, h11⟩ :=
    updateCell_frame notaSheet 1 1 (.str "8") _ hrun
  exact ⟨_, hrun, h2, h10 0 (by decide), h11 0 (by decide) (fun mi out he => by
    rw [show avgResult (editedHeaders notaSheet 1 1 (.str "8")) 1
        (editedRow notaSheet 1 1 (.str "8")) = some (2, "7,8") from by decide] at he
    cases he
    decide)⟩

theorem mem_takeDigits_rest (ch : Char) (hch : isDigitCh ch = false) :
    ∀ cs : List Char, ch ∈ cs → ch ∈ (takeDigits cs).2
  | [], h => absurd h (by simp)
  | c :: rest, h => by
    unfold takeDigits
    by_cases hc : isDigitCh c = true
    · rw [if_pos hc]
      rcases List.mem_cons.mp h with he | hm
      · subst he
        rw [hch] at hc
        cases hc
      · exact mem_takeDigits_rest ch hch rest hm
    · rw [if_neg hc]
      exact h

theorem comma_mem_tail (l : List Char) (hr : ',' ∈ l) (hh : l.headD ' ' ≠ ',') :
    ',' ∈ l.tail := by
  cases l with
  | nil => cases hr
  | cons c t =>
    rcases List.mem_cons.mp hr with hcm | hcm
    · exact absurd (by rw [List.headD_cons, ← hcm]) hh
    · exact hcm

theorem comma_mem_tryExp_rest (base : Frac) (rest fb : List Char)
    (hr : ',' ∈ rest) (hf : ',' ∈ fb) (q : Frac) (out : List Char)
    (he : tryExp base rest fb = some (q, out)) : ',' ∈ out := by
  simp only [tryExp] at he
  set R2 := (if rest.headD ' ' = '+' ∨ rest.headD ' ' = '-' then rest.tail else rest)
    with hR2
  have hr2 : ',' ∈ R2 := by
    rw [hR2]
    by_cases hh : rest.headD ' ' = '+' ∨ rest.headD ' ' = '-'
    · rw [if_pos hh]
      exact comma_mem_tail rest hr (by rcases hh with h | h <;> (rw [h]; decide))
    · rw [if_neg hh]
      exact hr
  by_cases hemp : (takeDigits R2).1.isEmpty = true
  · rw [if_pos hemp] at he
    cases he
    exact hf
  · rw [if_neg hemp] at he
    cases he
    exact mem_takeDigits_rest ',' (by decide) R2 hr2

theorem comma_mem_parseUnsigned_rest (cs : List Char) (q : Frac) (rest : List Char)
    (hcs : ',' ∈ cs) (he : parseUnsigned cs = some (q, rest)) : ',' ∈ rest := by
  have hr1 : ',' ∈ (takeDigits cs).2 := mem_takeDigits_rest ',' (by decide) cs hcs
  simp only [parseUnsigned] at he
  set FR := (if (takeDigits cs).2.headD ' ' = '.'
      then takeDigits (takeDigits cs).2.tail else ([], (takeDigits cs).2)) with hFR
  have hr2 : ',' ∈ FR.2 := by
    rw [hFR]
    by_cases hh : (takeDigits cs).2.headD ' ' = '.'
    · rw [if_pos hh]
      exact mem_takeDigits_rest ',' (by decide) _
        (comma_mem_tail _ hr1 (by rw [hh]; decide))
    · rw [if_neg hh]
      exact hr1
  by_cases h1 : ((takeDigits cs).1.isEmpty && FR.1.isEmpty) = true
  · rw [if_pos h1] at he
    cases he
  · rw [if_neg h1] at he
    by_cases h2 : FR.2.headD ' ' = 'e' ∨ FR.2.headD ' ' = 'E'
    · rw [if_pos h2] at he
      exact comma_mem_tryExp_rest _ FR.2.tail FR.2
        (comma_mem_tail _ hr2 (by rcases h2 with h | h <;> (rw [h]; decide))) hr2 q rest he
    · rw [if_neg h2] at he
      cases he
      exact hr2

theorem comma_mem_parseSigned_rest (cs : List Char) (q : Frac) (rest : List Char)
    (hcs : ',' ∈ cs) (he : parseSigned cs = some (q, rest)) : ',' ∈ rest := by
  unfold parseSigned at he
  by_cases h1 : cs.headD ' ' = '+'
  · rw [if_pos h1] at he
    exact comma_mem_parseUnsigned_rest cs.tail q rest
      (comma_mem_tail cs hcs (by rw [h1]; decide)) he
  · rw [if_neg h1] at he
    by_cases h2 : cs.headD ' ' = '-'
    · rw [if_pos h2] at he
      have htail := comma_mem_tail cs hcs (by rw [h2]; decide)
      cases hp : parseUnsigned cs.tail with
      | none =>
        rw [hp] at he
        cases he
      | some p =>
        rw [hp, Option.map_some'] at he
        cases he
        exact comma_mem_parseUnsigned_rest cs.tail p.1 p.2 htail hp
    · rw [if_neg h2] at he
      exact comma_mem_parseUnsigned_rest cs q rest hcs he

theorem mem_dropWhile_of_neg {p : Char → Bool} (x : Char) (hx : p x = false) :
    ∀ l : List Char, x ∈ l → x ∈ l.dropWhile p
  | c :: t, h => by
    rw [List.dropWhile_cons]
    by_cases hc : p c = true
    · rw [if_pos hc]
      rcases List.mem_cons.mp h with he | hm
      · subst he
        rw [hx] at hc
        cases hc
      · exact mem_dropWhile_of_neg x hx t hm
    · rw [if_neg hc]
      exact h

theorem comma_mem_trimChars (cs : List Char) (h : ',' ∈ cs) : ',' ∈ trimChars cs := by
  unfold trimChars
  apply List.mem_reverse.mpr
  apply mem_dropWhile_of_neg ',' (by decide)
  apply List.mem_reverse.mpr
  exact mem_dropWhile_of_neg ',' (by decide) cs h

theorem jsNumberOfString_comma_none (s : String) (hc : ',' ∈ s.data) :
    jsNumberOfString s = none := by
  have htrim : ',' ∈ trimChars s.data := comma_mem_trimChars s.data hc
  have hne : (trimChars s.data).isEmpty = false := by
    cases htc : trimChars s.data
    · rw [htc] at htrim
      cases htrim
    · rfl
  simp only [jsNumberOfString]
  rw [hne]
  simp only [Bool.false_eq_true, if_false]
  cases hp : parseSigned (trimChars s.data) with
  | none => rfl
  | some p =>
    obtain ⟨q, r⟩ := p
    cases r with
    | nil => exact absurd (comma_mem_parseSigned_rest _ q [] htrim hp) (by simp)
    | cons a t => rfl

/-- C10: the number-validation path performs no comma normalisation: a string
value containing a comma never parses (`Number` yields `NaN`), so a
`number` rule rejects it with the numeric message — while the average
computation parses the very same text after comma-to-period replacement,
and the conditional-format matcher treats it as numeric. -/
theorem validateValue_comma_rejected (s : String) (rule : ValidationRule)
    (hty : rule.type = .number) (hc : ',' ∈ s.data) :
    validateValue (.str s) rule = ⟨false, some "O valor deve ser um número."⟩ ∧
    operandParse (.str "7,5") = some ⟨75, 10⟩ ∧
    cellIsNumber (.str "7,5") = true := by
  refine ⟨?_, by decide, by decide⟩
  have hnum : jsNumber (.str s) = none := jsNumberOfString_comma_none s hc
  have hs : s ≠ "" := by
    intro hemp
    subst hemp
    cases hc
  have hv : ¬(CellValue.str s = .str "" ∨ CellValue.str s = .null ∨
      CellValue.str s = .undef) := by
    intro hbad
    rcases hbad with h | h | h
    · exact hs (CellValue.str.inj h)
    · cases h
    · cases h
  simp [validateValue, hv, hty, hnum, hs]

/-- Witness for C10: the literal "7,5" is rejected by a bare number rule with
the numeric message. -/
theorem validateValue_comma_rejected_witness :
    validateValue (.str "7,5") numRulePlain =
      ⟨false, some "O valor deve ser um número."⟩ :=
  (validateValue_comma_rejected "7,5" numRulePlain rfl (by decide)).1

theorem lookupG_cons (g : String × List (List CellValue))
    (gs : List (String × List (List CellValue))) (k : String) :
    lookupG (g :: gs) k = if g.1 = k then g.2 else lookupG gs k := by
  unfold lookupG
  by_cases h : g.1 = k
  · simp [List.find?, h]
  · have hb : (g.1 == k) = false := beq_eq_false_iff_ne.mpr h
    simp [List.find?, hb, h]

theorem lookupG_eq_nil_of_not_any (gs : List (String × List (List CellValue)))
    (k : String) (h : ¬gs.any (fun g => g.1 == k) = true) : lookupG gs k = [] := by
  induction gs with
  | nil => rfl
  | cons g t ih =>
    rw [lookupG_cons]
    rw [List.any_cons] at h
    by_cases hg : g.1 = k
    · exact absurd (by simp [hg]) h
    · rw [if_neg hg]
      exact ih (fun ht => h (by simp [ht]))

theorem lookupG_append (gs1 gs2 : List (String × List (List CellValue))) (k : String) :
    lookupG (gs1 ++ gs2) k =
      if gs1.any (fun g => g.1 == k) = true then lookupG gs1 k else lookupG gs2 k := by
  induction gs1 with
  | nil => simp
  | cons g t ih =>
    rw [List.cons_append, lookupG_cons, lookupG_cons, List.any_cons]
    by_cases hg : g.1 = k
    · rw [if_pos hg, if_pos hg, if_pos (by simp [hg])]
    · rw [if_neg hg, if_neg hg, ih]
      by_cases ht : t.any (fun g => g.1 == k) = true
      · rw [if_pos ht, if_pos (by simp [hg, ht])]
      · rw [if_neg ht, if_neg (by simp [hg, ht])]

theorem lookupG_map_bump_ne (gs : List (String × List (List CellValue)))
    (kp k : String) (row : List CellValue) (hk : k ≠ kp) :
    lookupG (gs.map (fun g => if g.1 == kp then (g.1, g.2 ++ [row]) else g)) k =
      lookupG gs k := by
  induction gs with
  | nil => rfl
  | cons g t ih =>
    rw [List.map_cons, lookupG_cons, lookupG_cons]
    have hfst : (if g.1 == kp then (g.1, g.2 ++ [row]) else g).1 = g.1 := by
      by_cases h : (g.1 == kp) = true <;> simp [h]
    rw [hfst]
    by_cases hg : g.1 = k
    · rw [if_pos hg, if_pos hg]
      show (if g.1 == kp then (g.1, g.2 ++ [row]) else g).2 = g.2
      have : (g.1 == kp) = false := by
        rw [hg]
        exact beq_eq_false_iff_ne.mpr (fun h => hk h)
      simp [this]
    · rw [if_neg hg, if_neg hg, ih]

theorem lookupG_map_bump_eq (gs : List (String × List (List CellValue)))
    (kp : String) (row : List CellValue) :
    lookupG (gs.map (fun g => if g.1 == kp then (g.1, g.2 ++ [row]) else g)) kp =
      lookupG gs kp ++
        (if gs.any (fun g => g.1 == kp) = true then [row] else []) := by
  induction gs with
  | nil => simp [lookupG]
  | cons g t ih =>
    rw [List.map_cons, lookupG_cons, lookupG_cons, List.any_cons]
    have hfst : (if g.1 == kp then (g.1, g.2 ++ [row]) else g).1 = g.1 := by
      by_cases h : (g.1 == kp) = true <;> simp [h]
    rw [hfst]
    by_cases hg : g.1 = kp
    · have hbump : (if g.1 == kp then (g.1, g.2 ++ [row]) else g).2 = g.2 ++ [row] := by
        simp [hg]
      rw [if_pos hg, if_pos hg, hbump,
        if_pos (show (g.1 == kp || t.any fun g => g.1 == kp) = true from by simp [hg])]
    · rw [if_neg hg, if_neg hg, ih]
      by_cases ht : t.any (fun g => g.1 == kp) = true
      · rw [if_pos ht, if_pos (by simp [hg, ht])]
      · rw [if_neg ht, if_neg (by simp [hg, ht])]

theorem lookupG_addToGroups (gs : List (String × List (List CellValue)))
    (kp k : String) (row : List CellValue) :
    lookupG (addToGroups gs kp row) k =
      lookupG gs k ++ (if k = kp then [row] else []) := by
  unfold addToGroups
  by_cases hany : gs.any (fun g => g.1 == kp) = true
  · rw [if_pos hany]
    by_cases hk : k = kp
    · subst hk
      rw [lookupG_map_bump_eq, if_pos hany, if_pos rfl]
    · rw [lookupG_map_bump_ne gs kp k row hk, if_neg hk, List.append_nil]
  · rw [if_neg hany, lookupG_append]
    by_cases hk2 : gs.any (fun g => g.1 == k) = true
    · rw [if_pos hk2]
      have hkne : k ≠ kp := fun he => hany (he ▸ hk2)
      rw [if_neg hkne, List.append_nil]
    · rw [if_neg hk2, lookupG_cons,
        lookupG_eq_nil_of_not_any gs k hk2, List.nil_append]
      by_cases hk : k = kp
      · rw [if_pos hk.symm, if_pos hk]
      · rw [if_neg (fun h => hk h.symm), if_neg hk]
        rfl

theorem lookupG_groupFold (c : Nat) (k : String) :
    ∀ (rows : List (List CellValue)) (gs : List (String × List (List CellValue))),
      lookupG (rows.foldl (fun gs row =>
          if row.length == 0 then gs else addToGroups gs (rowKey c row) row) gs) k =
        lookupG gs k ++ rows.filter (fun r => r.length != 0 && rowKey c r == k)
  | [], gs => by simp
  | row :: rest, gs => by
    rw [List.foldl_cons]
    by_cases hlen : (row.length == 0) = true
    · have hb : (row.length != 0) = false := by simp [bne, hlen]
      rw [if_pos hlen, lookupG_groupFold c k rest gs, List.filter_cons,
        if_neg (by simp [hb])]
    · have h0 : (row.length == 0) = false := by
        revert hlen
        cases (row.length == 0) <;> simp
      have hb : (row.length != 0) = true := by simp [bne, h0]
      rw [if_neg hlen, lookupG_groupFold c k rest (addToGroups gs (rowKey c row) row),
        lookupG_addToGroups, List.filter_cons]
      by_cases hk : (rowKey c row == k) = true
      · have hkk : k = rowKey c row := (beq_iff_eq.mp hk).symm
        rw [if_pos hkk, if_pos (by simp [hb, hk]), List.append_assoc]
        rfl
      · have hkk : ¬(k = rowKey c row) := fun he => hk (beq_iff_eq.mpr he.symm)
        rw [if_neg hkk, List.append_nil, if_neg (by simp [hk])]

theorem keys_map_bump (gs : List (String × List (List CellValue)))
    (kp : String) (row : List CellValue) :
    ((gs.map (fun g => if g.1 == kp then (g.1, g.2 ++ [row]) else g)).map Prod.fst) =
      gs.map Prod.fst := by
  rw [List.map_map]
  apply List.map_congr_left
  intro g _
  show (if g.1 == kp then (g.1, g.2 ++ [row]) else g).1 = g.1
  by_cases h : (g.1 == kp) = true <;> simp [h]

theorem any_key_iff (gs : List (String × List (List CellValue))) (k : String) :
    gs.any (fun g => g.1 == k) = true ↔ k ∈ gs.map Prod.fst := by
  rw [List.any_eq_true]
  constructor
  · rintro ⟨g, hg, hp⟩
    exact List.mem_map.mpr ⟨g, hg, beq_iff_eq.mp hp⟩
  · intro hm
    rcases List.mem_map.mp hm with ⟨g, hg, he⟩
    exact ⟨g, hg, beq_iff_eq.mpr he⟩

theorem keys_addToGroups (gs : List (String × List (List CellValue)))
    (k : String) (row : List CellValue) :
    (addToGroups gs k row).map Prod.fst =
      if gs.any (fun g => g.1 == k) = true then gs.map Prod.fst
      else gs.map Prod.fst ++ [k] := by
  unfold addToGroups
  by_cases hany : gs.any (fun g => g.1 == k) = true
  · rw [if_pos hany, if_pos hany, keys_map_bump]
  · rw [if_neg hany, if_neg hany, List.map_append]
    rfl

theorem firstDedupAux_congr : ∀ (l : List String) (s1 s2 : List String),
    (∀ x, x ∈ s1 ↔ x ∈ s2) → firstDedupAux s1 l = firstDedupAux s2 l
  | [], _, _, _ => rfl
  | k :: rest, s1, s2, hs => by
    simp only [firstDedupAux]
    by_cases hk : k ∈ s1
    · rw [if_pos hk, if_pos ((hs k).mp hk)]
      exact firstDedupAux_congr rest s1 s2 hs
    · rw [if_neg hk, if_neg (fun h => hk ((hs k).mpr h))]
      rw [firstDedupAux_congr rest (k :: s1) (k :: s2) (fun x => by
        simp only [List.mem_cons]
        exact or_congr Iff.rfl (hs x))]

theorem keys_groupFold (c : Nat) :
    ∀ (rows : List (List CellValue)) (gs : List (String × List (List CellValue))),
      ((rows.foldl (fun gs row =>
          if row.length == 0 then gs else addToGroups gs (rowKey c row) row) gs).map
            Prod.fst) =
        gs.map Prod.fst ++
          firstDedupAux (gs.map Prod.fst)
            ((rows.filter (fun r => r.length != 0)).map (rowKey c))
  | [], gs => by simp [firstDedupAux]
  | row :: rest, gs => by
    rw [List.foldl_cons]
    by_cases hlen : (row.length == 0) = true
    · have hb : (row.length != 0) = false := by simp [bne, hlen]
      rw [if_pos hlen, keys_groupFold c rest gs, List.filter_cons, if_neg (by simp [hb])]
    · have h0 : (row.length == 0) = false := by
        revert hlen
        cases (row.length == 0) <;> simp
      have hb : (row.length != 0) = true := by simp [bne, h0]
      rw [if_neg hlen, keys_groupFold c rest (addToGroups gs (rowKey c row) row),
        keys_addToGroups, List.filter_cons, if_pos hb, List.map_cons]
      simp only [firstDedupAux]
      by_cases hm : rowKey c row ∈ gs.map Prod.fst
      · rw [if_pos ((any_key_iff gs (rowKey c row)).mpr hm), if_pos hm]
      · rw [if_neg (fun h => hm ((any_key_iff gs (rowKey c row)).mp h)), if_neg hm,
          List.append_assoc, List.singleton_append]
        congr 1
        congr 1
        exact firstDedupAux_congr _ (gs.map Prod.fst ++ [rowKey c row])
          (rowKey c row :: gs.map Prod.fst) (fun x => by
            simp only [List.mem_append, List.mem_cons, List.not_mem_nil, or_false]
            exact or_comm)

/-- C8 amended: with fewer than two rows `splitSheetByColumn` returns the
empty list; otherwise it returns exactly one sheet per distinct group key
of the non-empty data rows (empty rows are skipped), where a row's key is
`String(cell || "Sem Turma")` — so every falsy cell (empty, null or
undefined, numeric 0, false) maps to the sentinel label, not only
empty/undefined ones — each sheet holding the shared header followed by
exactly that group's rows in original order, named by the source name and
the group key. -/
theorem splitSheetByColumn_spec (fresh : Nat → String) (sheet : Sheet) (c : Nat) :
    (sheet.data.length < 2 → splitSheetByColumn fresh sheet c = []) ∧
    (2 ≤ sheet.data.length →
      splitSheetByColumn fresh sheet c =
        (jsObjectKeys (firstDedupAux []
          (((sheet.data.drop 1).filter (fun r => r.length != 0)).map (rowKey c)))).enum.map
          (fun ik =>
            { id := fresh ik.1, name := sheet.name ++ " - " ++ ik.2,
              data := (sheet.data.getD 0 []) ::
                ((sheet.data.drop 1).filter (fun r => r.length != 0 && rowKey c r == ik.2)),
              conditionalFormats := [], validationRules := [],
              editCode := none, viewCode := none, accessCode := none,
              accessCodeExpiration := none, isShared := false })) := by
  constructor
  · intro h
    unfold splitSheetByColumn
    rw [if_pos h]
  · intro h
    simp only [splitSheetByColumn]
    rw [if_neg (Nat.not_lt.mpr h)]
    have hkeys : (buildGroups c (sheet.data.drop 1)).map Prod.fst =
        firstDedupAux []
          (((sheet.data.drop 1).filter (fun r => r.length != 0)).map (rowKey c)) := by
      unfold buildGroups
      rw [keys_groupFold c (sheet.data.drop 1) []]
      simp
    rw [hkeys]
    apply List.map_congr_left
    intro ik _
    have hdata : lookupG (buildGroups c (sheet.data.drop 1)) ik.2 =
        (sheet.data.drop 1).filter (fun r => r.length != 0 && rowKey c r == ik.2) := by
      unfold buildGroups
      rw [lookupG_groupFold c ik.2 (sheet.data.drop 1) []]
      simp [lookupG]
    rw [hdata]

/-- C8 counterexample: the cell value 0 is neither empty nor undefined and
stringifies to "0", yet the produced sheet is named with the sentinel
group label — the key fallback applies to all falsy values, not only
empty/undefined cells as the claim states. -/
theorem splitSheetByColumn_zero_counterexample :
    (splitSheetByColumn (fun _ => "id") zeroCellSheet 0).map Sheet.name =
      ["S - Sem Turma"] ∧
    cvToString (.num (Frac.ofNat 0)) = "0" ∧
    ("S - Sem Turma" : String) ≠ "S - 0" := by
  refine ⟨by decide, by decide, by decide⟩

/-- Witness for C8 (amended): a one-row (header-only) sheet splits into the
empty list. -/
theorem splitSheetByColumn_spec_witness :
    splitSheetByColumn (fun _ => "id") headerOnlySheet 1 = [] :=
  (splitSheetByColumn_spec (fun _ => "id") headerOnlySheet 1).1 (by decide)
